import Mathlib

/-!
Verification of the transcript-to-document pipeline of `transcribe.py`.

Python strings are modelled as `List Char`; Python floats that hold exact
timestamp arithmetic are modelled as `ℚ`.  Each definition below mirrors one
Python function of the source: `parse_srt_timestamp`, `parse_srt`,
`_format_time`, `format_timestamp`, `format_duration` and
`generate_markdown` (with its two transcript-body branches factored as
`timestamp_lines` and `group_paragraphs`).
-/

/-- Characters of a string literal, the `List Char` view of a Python string. -/
def str (s : String) : List Char := s.data

/-- Python `str.strip` whitespace test (space, tab, newline, CR, VT, FF). -/
def isWS (c : Char) : Bool :=
  c == ' ' || c == '\t' || c == '\n' || c == '\r' || c == '\x0b' || c == '\x0c'

/-- Python `str.strip()`: drop whitespace from both ends. -/
def pyStrip (s : List Char) : List Char :=
  ((s.dropWhile isWS).reverse.dropWhile isWS).reverse

/-- Boolean test that the first list is an initial run of the second. -/
def isPre : List Char → List Char → Bool
  | [], _ => true
  | _ :: _, [] => false
  | p :: ps, x :: xs => p == x && isPre ps xs

/-- Fuel-driven worker for `pySplit`; the fuel only has to dominate the
length of the input, so the wrapper below instantiates it with that length. -/
def pySplitF (sep : List Char) : Nat → List Char → List (List Char)
  | _, [] => [[]]
  | 0, s => [s]
  | fuel + 1, c :: rest =>
    if sep ≠ [] ∧ isPre sep (c :: rest) = true then
      [] :: pySplitF sep fuel ((c :: rest).drop sep.length)
    else
      match pySplitF sep fuel rest with
      | [] => [[c]]
      | p :: ps => (c :: p) :: ps

/-- Python `s.split(sep)` for a non-empty separator: leftmost-first,
non-overlapping occurrences of `sep` cut `s` into pieces. -/
def pySplit (sep s : List Char) : List (List Char) :=
  pySplitF sep s.length s

/-- Python `sep.join(parts)`. -/
def joinSep (sep : List Char) : List (List Char) → List Char
  | [] => []
  | [x] => x
  | x :: y :: rest => x ++ sep ++ joinSep sep (y :: rest)

/-- Decimal digits of a natural number, as characters. -/
def natToStr (n : Nat) : List Char := Nat.toDigits 10 n

/-- Python `str(i)` for an integer. -/
def intToStr (n : Int) : List Char :=
  if n < 0 then '-' :: natToStr n.natAbs else natToStr n.toNat

/-- Python `f"{n:02d}"`: zero-pad the decimal form to width two. -/
def pad2 (n : Int) : List Char :=
  let s := intToStr n
  if s.length < 2 then '0' :: s else s

/-- Numeric value of a run of decimal digit characters. -/
def digitsVal (l : List Char) : Nat :=
  l.foldl (fun n c => 10 * n + (c.toNat - 48)) 0

/-- Python `int(s)`: strip whitespace, allow one sign, then decimal digits;
any other shape raises `ValueError`, modelled as `none`. -/
def pyParseInt (s : List Char) : Option Int :=
  if (pyStrip s).head? = some '-' then
    if (pyStrip s).tail ≠ [] ∧ (pyStrip s).tail.all Char.isDigit then
      some (-(digitsVal (pyStrip s).tail : Int))
    else none
  else if (pyStrip s).head? = some '+' then
    if (pyStrip s).tail ≠ [] ∧ (pyStrip s).tail.all Char.isDigit then
      some ((digitsVal (pyStrip s).tail : Int))
    else none
  else
    if pyStrip s ≠ [] ∧ (pyStrip s).all Char.isDigit then
      some ((digitsVal (pyStrip s) : Int))
    else none

/-- Python `int(x)` on a float value: truncation toward zero. -/
def pyInt (q : ℚ) : Int := if 0 ≤ q then ⌊q⌋ else -⌊-q⌋

/-- `_format_time` of the source: seconds to `M:SS` or `H:MM:SS`,
optionally bracketed. -/
def _format_time (seconds : ℚ) (brackets : Bool) : List Char :=
  let total := pyInt seconds
  let h := Int.fdiv total 3600
  let m := Int.fdiv (Int.fmod total 3600) 60
  let s := Int.fmod total 60
  let time_str :=
    if 0 < h then intToStr h ++ [':'] ++ pad2 m ++ [':'] ++ pad2 s
    else intToStr m ++ [':'] ++ pad2 s
  if brackets then '[' :: time_str ++ [']'] else time_str

/-- `format_timestamp` of the source. -/
def format_timestamp (seconds : ℚ) : List Char := _format_time seconds true

/-- `format_duration` of the source. -/
def format_duration (seconds : ℚ) : List Char := _format_time seconds false

/-- One timed caption segment, the dictionaries built by `parse_srt`. -/
structure Segment where
  start : ℚ
  end_ : ℚ
  text : List Char
deriving DecidableEq

/-- `parse_srt_timestamp` of the source: `HH:MM:SS,mmm` to seconds; the
tuple unpackings and `int` conversions that raise `ValueError` in Python
are the `none` branches. -/
def parse_srt_timestamp (timestamp : List Char) : Option ℚ :=
  match pySplit (str ",") timestamp with
  | [time_part, ms_part] =>
    match pySplit (str ":") time_part with
    | [hs, mins, secs] =>
      match pyParseInt hs, pyParseInt mins, pyParseInt secs, pyParseInt ms_part with
      | some h, some m, some s, some ms =>
        some ((h : ℚ) * 3600 + (m : ℚ) * 60 + (s : ℚ) + (ms : ℚ) / 1000)
      | _, _, _, _ => none
    | _ => none
  | _ => none

/-- Body of the `parse_srt` loop for one block: `none` exactly when the
block is skipped (fewer than three lines, a timing line that does not
unpack into two halves around `" --> "`, an unparsable timestamp, or
empty joined text). -/
def parse_block (block : List Char) : Option Segment :=
  match pySplit (str "\n") (pyStrip block) with
  | _ :: timestamp_line :: t1 :: trest =>
    match pySplit (str " --> ") timestamp_line with
    | [start_ts, end_ts] =>
      match parse_srt_timestamp (pyStrip start_ts), parse_srt_timestamp (pyStrip end_ts) with
      | some s, some e =>
        let text := pyStrip (joinSep (str " ") (t1 :: trest))
        if text ≠ [] then some ⟨s, e, text⟩ else none
      | _, _ => none
    | _ => none
  | _ => none

/-- `parse_srt` of the source: split the stripped content on blank lines
and keep the segments of the blocks that parse. -/
def parse_srt (content : List Char) : List Segment :=
  (pySplit (str "\n\n") (pyStrip content)).filterMap parse_block

/-- The `video_info` fields `generate_markdown` reads, `none` when the
key is absent from the metadata dictionary. -/
structure VideoInfo where
  title : Option (List Char)
  duration : Option ℚ

/-- `PARAGRAPH_GAP_SECONDS` of the source. -/
def PARAGRAPH_GAP_SECONDS : ℚ := 3 / 2

/-- One iteration of the paragraph-grouping loop of `generate_markdown`:
state is (finished paragraphs, current paragraph, `last_end`). -/
def gm_step (thr : ℚ) (st : List (List Char) × List (List Char) × ℚ)
    (segment : Segment) : List (List Char) × List (List Char) × ℚ :=
  let text := pyStrip segment.text
  if text = [] then st
  else if st.2.1 ≠ [] ∧ thr < segment.start - st.2.2 then
    (st.1 ++ [joinSep (str " ") st.2.1], [text], segment.end_)
  else (st.1, st.2.1 ++ [text], segment.end_)

/-- The paragraph-grouping branch of `generate_markdown`, with the gap
threshold as a parameter (the source applies it at `PARAGRAPH_GAP_SECONDS`). -/
def group_paragraphs (segments : List Segment) (thr : ℚ) : List (List Char) :=
  let st := segments.foldl (gm_step thr) ([], [], 0)
  if st.2.1 ≠ [] then st.1 ++ [joinSep (str " ") st.2.1] else st.1

/-- The timestamped branch of `generate_markdown`: one `"[t] text"` line
plus one blank line per segment with non-empty stripped text. -/
def timestamp_lines : List Segment → List (List Char)
  | [] => []
  | segment :: rest =>
    let text := pyStrip segment.text
    if text = [] then timestamp_lines rest
    else (format_timestamp segment.start ++ [' '] ++ text) :: [] :: timestamp_lines rest

/-- Emission of the grouped paragraphs: each paragraph line followed by a
blank line. -/
def paragraph_lines : List (List Char) → List (List Char)
  | [] => []
  | p :: rest => p :: [] :: paragraph_lines rest

/-- The `lines` list `generate_markdown` accumulates before joining; the
rendering date is the injected `today` argument. -/
def generate_markdown_lines (video_info : VideoInfo) (segments : List Segment)
    (url : List Char) (include_timestamps : Bool) (today : List Char) :
    List (List Char) :=
  let title := video_info.title.getD (str "Untitled Video")
  let duration := video_info.duration.getD 0
  let header : List (List Char) :=
    [str "# Transcript: " ++ title,
     [],
     str "**Source:** " ++ url,
     str "**Duration:** " ++ format_duration duration,
     str "**Transcribed:** " ++ today,
     [],
     str "---",
     [],
     str "## Transcript",
     []]
  let body :=
    if include_timestamps then timestamp_lines segments
    else paragraph_lines (group_paragraphs segments PARAGRAPH_GAP_SECONDS)
  header ++ body

/-- `generate_markdown` of the source: the joined document text. -/
def generate_markdown (video_info : VideoInfo) (segments : List Segment)
    (url : List Char) (include_timestamps : Bool) (today : List Char) : List Char :=
  joinSep (str "\n") (generate_markdown_lines video_info segments url include_timestamps today)

/-! Specification-side definitions, written from the words of the spec and
compared with the code-side definitions above. -/

/-- Zero-padding of a decimal numeral to two digits, for the `MM`/`SS`
fields of the spec's clock patterns. -/
def pad2Nat (n : Nat) : List Char :=
  if (natToStr n).length < 2 then '0' :: natToStr n else natToStr n

/-- Modelled from the spec: the shared truncation/division routine of the
TimeFormatter, `h = floor(total/3600)`, `m = floor((total mod 3600)/60)`,
`s = total mod 60`, rendered as `H:MM:SS` when hours are positive and
`M:SS` otherwise. -/
def formatClockCore (seconds : ℚ) : List Char :=
  let total : Nat := (⌊seconds⌋).toNat
  let h := total / 3600
  let m := total % 3600 / 60
  let s := total % 60
  if 0 < h then natToStr h ++ [':'] ++ pad2Nat m ++ [':'] ++ pad2Nat s
  else natToStr m ++ [':'] ++ pad2Nat s

/-- Modelled from the spec: `formatClockBracketed`, the bracketed variant. -/
def formatClockBracketed (seconds : ℚ) : List Char :=
  '[' :: formatClockCore seconds ++ [']']

/-- Modelled from the spec: `formatClockPlain`, the same digits without
brackets. -/
def formatClockPlain (seconds : ℚ) : List Char := formatClockCore seconds

/-- Modelled from the spec: the reference paragraph policy of §4.3, a
direct recursion carrying the running buffer and the `lastEnd` cursor. -/
def segmentSpecGo (thr : ℚ) : List Segment → List (List Char) → ℚ → List (List Char)
  | [], buffer, _ => if buffer.isEmpty then [] else [joinSep (str " ") buffer]
  | seg :: rest, buffer, lastEnd =>
    let text := pyStrip seg.text
    if text.isEmpty then segmentSpecGo thr rest buffer lastEnd
    else if ¬ buffer.isEmpty ∧ thr < seg.start - lastEnd then
      joinSep (str " ") buffer :: segmentSpecGo thr rest [text] seg.end_
    else segmentSpecGo thr rest (buffer ++ [text]) seg.end_

/-- Modelled from the spec: `ParagraphSegmenter.segment`, starting from an
empty buffer and `lastEnd = 0`. -/
def segmentSpec (segments : List Segment) (thr : ℚ) : List (List Char) :=
  segmentSpecGo thr segments [] 0

/-! Constructors for well-formed caption fragments, used to state the
parser claims, plus auxiliary devices for the remaining claims. -/

/-- The decimal digit character of `d < 10`. -/
def digitChar (d : Nat) : Char := Char.ofNat (48 + d)

/-- The two-digit decimal form of `n < 100`, the `HH`/`MM`/`SS` fields. -/
def twoDig (n : Nat) : List Char := [digitChar (n / 10), digitChar (n % 10)]

/-- The three-digit decimal form of `n < 1000`, the `mmm` field. -/
def threeDig (n : Nat) : List Char :=
  [digitChar (n / 100), digitChar (n / 10 % 10), digitChar (n % 10)]

/-- A valid `HH:MM:SS,mmm` timestamp string built from its four fields. -/
def tsStr (h m s ms : Nat) : List Char :=
  twoDig h ++ [':'] ++ twoDig m ++ [':'] ++ twoDig s ++ [','] ++ threeDig ms

/-- A timing line: two timestamps around `" --> "`, with optional extra
whitespace `ws1`/`ws2` hugging the separator. -/
def mkTiming (ws1 ws2 : List Char) (h1 m1 s1 ms1 h2 m2 s2 ms2 : Nat) : List Char :=
  tsStr h1 m1 s1 ms1 ++ ws1 ++ str " --> " ++ ws2 ++ tsStr h2 m2 s2 ms2

/-- A caption block: index line, timing line and text lines joined by
single newlines. -/
def mkContent (idx timing : List Char) (textlines : List (List Char)) : List Char :=
  joinSep (str "\n") (idx :: timing :: textlines)

/-- Structural failure of a block, the shapes listed by the spec: fewer
than three lines, a timing line that does not split in two around
`" --> "`, or timestamp halves that do not parse. -/
def badBlock (b : List Char) : Bool :=
  let lines := pySplit (str "\n") (pyStrip b)
  decide (lines.length < 3) ||
    match lines[1]? with
    | none => false
    | some tline =>
      match pySplit (str " --> ") tline with
      | [ts1, ts2] =>
        (parse_srt_timestamp (pyStrip ts1)).isNone ||
          (parse_srt_timestamp (pyStrip ts2)).isNone
      | _ => true

/-- The paragraph-grouping loop again, but keeping each paragraph as its
list of constituent texts instead of joining them (for the conservation
argument). -/
def gmw_step (thr : ℚ) (st : List (List (List Char)) × List (List Char) × ℚ)
    (segment : Segment) : List (List (List Char)) × List (List Char) × ℚ :=
  let text := pyStrip segment.text
  if text = [] then st
  else if st.2.1 ≠ [] ∧ thr < segment.start - st.2.2 then
    (st.1 ++ [st.2.1], [text], segment.end_)
  else (st.1, st.2.1 ++ [text], segment.end_)

/-- Word-level paragraph grouping: same policy, paragraphs as text lists. -/
def group_words (segments : List Segment) (thr : ℚ) : List (List (List Char)) :=
  let st := segments.foldl (gmw_step thr) ([], [], 0)
  if st.2.1 ≠ [] then st.1 ++ [st.2.1] else st.1

/-- The stripped non-empty texts of a segment sequence, in order. -/
def keptTexts (segments : List Segment) : List (List Char) :=
  (segments.map fun s => pyStrip s.text).filter fun t => !t.isEmpty

/-! Helper lemmas. -/

theorem pyInt_of_nonneg (q : ℚ) (h : 0 ≤ q) : pyInt q = ⌊q⌋ := if_pos h

theorem int_fdiv_natCast_3600 (m : Nat) : Int.fdiv (↑m) 3600 = ↑(m / 3600) := by
  rw [Int.fdiv_eq_ediv _ (by norm_num)]; omega

theorem int_fmod_natCast_3600 (m : Nat) : Int.fmod (↑m) 3600 = ↑(m % 3600) := by
  rw [Int.fmod_eq_emod _ (by norm_num)]; omega

theorem int_fdiv_natCast_60 (m : Nat) : Int.fdiv (↑m) 60 = ↑(m / 60) := by
  rw [Int.fdiv_eq_ediv _ (by norm_num)]; omega

theorem int_fmod_natCast_60 (m : Nat) : Int.fmod (↑m) 60 = ↑(m % 60) := by
  rw [Int.fmod_eq_emod _ (by norm_num)]; omega

theorem intToStr_natCast (k : Nat) : intToStr (↑k) = natToStr k := by
  unfold intToStr
  rw [if_neg (by exact Int.not_lt.mpr (Int.natCast_nonneg k)), Int.toNat_natCast]

theorem pad2_natCast (k : Nat) : pad2 (↑k) = pad2Nat k := by
  unfold pad2 pad2Nat
  rw [intToStr_natCast]

theorem _format_time_of_nonneg (q : ℚ) (b : Bool) (h : 0 ≤ q) :
    _format_time q b = if b then '[' :: formatClockCore q ++ [']'] else formatClockCore q := by
  obtain ⟨n, hn⟩ : ∃ n : Nat, ⌊q⌋ = ↑n :=
    ⟨⌊q⌋.toNat, (Int.toNat_of_nonneg (Int.floor_nonneg.mpr h)).symm⟩
  unfold _format_time formatClockCore
  rw [pyInt_of_nonneg q h]
  simp only [hn, Int.toNat_natCast, int_fdiv_natCast_3600, int_fmod_natCast_3600,
    int_fdiv_natCast_60, int_fmod_natCast_60, intToStr_natCast, pad2_natCast,
    Int.natCast_pos]

/-! Claim theorems. -/

/-- C5: for every non-negative seconds value the two formatter variants of
the code agree with the spec's truncation/division routine — bracketed
`[H:MM:SS]` when the hour part is positive, `[M:SS]` otherwise, minutes
and seconds zero-padded to two digits inside the hours form, hours and the
leading minutes unpadded — and the plain variant yields the same digits
without brackets; in particular `formatClockBracketed 65 = "[1:05]"`,
`formatClockBracketed 3661 = "[1:01:01]"` and `formatClockPlain 59 = "0:59"`. -/
theorem c5_time_formatter (q : ℚ) (h : 0 ≤ q) :
    (format_timestamp q = formatClockBracketed q ∧
      format_duration q = formatClockPlain q) ∧
    format_timestamp 65 = str "[1:05]" ∧
    format_timestamp 3661 = str "[1:01:01]" ∧
    format_duration 59 = str "0:59" := by
  refine ⟨⟨?_, ?_⟩, by decide, by decide, by decide⟩
  · rw [format_timestamp, _format_time_of_nonneg q true h]; rfl
  · rw [format_duration, _format_time_of_nonneg q false h]; rfl

/-- C5 witness at the concrete input 65. -/
theorem c5_time_formatter_witness :
    format_timestamp 65 = formatClockBracketed 65 :=
  (c5_time_formatter 65 (by norm_num)).1.1

/-- C6: with an empty segments sequence the rendered line list is exactly
the document skeleton — title heading, metadata block, divider and the
transcript heading — with no transcript content lines after the heading,
for both timestamp modes and any metadata. -/
theorem c6_empty_segments (info : VideoInfo) (url today : List Char) (b : Bool) :
    generate_markdown_lines info [] url b today =
      [str "# Transcript: " ++ info.title.getD (str "Untitled Video"),
       [],
       str "**Source:** " ++ url,
       str "**Duration:** " ++ format_duration (info.duration.getD 0),
       str "**Transcribed:** " ++ today,
       [],
       str "---",
       [],
       str "## Transcript",
       []] := by
  cases b <;> rfl

/-- C7: DocumentRenderer substitutes defaults for absent metadata fields —
a missing title renders exactly as a present `"Untitled Video"` and a
missing duration exactly as a present `0` (so the rest of the document is
unaffected), the title heading becomes `# Transcript: Untitled Video` and
the duration line `**Duration:** 0:00` (that is, `formatClockPlain 0`). -/
theorem c7_metadata_defaults (t : Option (List Char)) (d : Option ℚ)
    (segments : List Segment) (url today : List Char) (b : Bool) :
    generate_markdown_lines ⟨none, d⟩ segments url b today =
      generate_markdown_lines ⟨some (str "Untitled Video"), d⟩ segments url b today ∧
    generate_markdown_lines ⟨t, none⟩ segments url b today =
      generate_markdown_lines ⟨t, some 0⟩ segments url b today ∧
    (generate_markdown_lines ⟨none, none⟩ segments url b today)[0]? =
      some (str "# Transcript: Untitled Video") ∧
    (generate_markdown_lines ⟨none, none⟩ segments url b today)[3]? =
      some (str "**Duration:** 0:00") := by
  refine ⟨rfl, rfl, ?_, ?_⟩ <;> rfl

/-! Machinery for `pySplit`: fuel irrelevance, a one-step unfolding, and
the two structural laws (no occurrence, first occurrence). -/

theorem pySplitF_nil (sep : List Char) (f : Nat) : pySplitF sep f [] = [[]] := by
  cases f <;> rfl

theorem sep_length_pos {sep : List Char} (h : sep ≠ []) : 1 ≤ sep.length := by
  cases sep
  · exact absurd rfl h
  · simp

theorem pySplitF_fuel_eq (sep : List Char) :
    ∀ f g s, s.length ≤ f → s.length ≤ g → pySplitF sep f s = pySplitF sep g s := by
  intro f
  induction f with
  | zero =>
    intro g s hf _
    have hs : s = [] := by cases s <;> simp_all
    subst hs
    rw [pySplitF_nil, pySplitF_nil]
  | succ f ih =>
    intro g s hf hg
    cases s with
    | nil => rw [pySplitF_nil, pySplitF_nil]
    | cons c rest =>
      cases g with
      | zero => simp at hg
      | succ g' =>
        simp only [pySplitF]
        by_cases hc : sep ≠ [] ∧ isPre sep (c :: rest) = true
        · rw [if_pos hc, if_pos hc]
          have hd : ((c :: rest).drop sep.length).length ≤ rest.length := by
            have := sep_length_pos hc.1
            simp only [List.length_drop, List.length_cons]
            omega
          have hlc : rest.length ≤ f := by simpa using hf
          have hgc : rest.length ≤ g' := by simpa using hg
          rw [ih g' _ (le_trans hd hlc) (le_trans hd hgc)]
        · rw [if_neg hc, if_neg hc]
          rw [ih g' rest (by simpa using hf) (by simpa using hg)]

theorem pySplit_nil (sep : List Char) : pySplit sep [] = [[]] := rfl

theorem pySplit_cons (sep : List Char) (c : Char) (rest : List Char) :
    pySplit sep (c :: rest) =
      if sep ≠ [] ∧ isPre sep (c :: rest) = true then
        [] :: pySplit sep ((c :: rest).drop sep.length)
      else
        match pySplit sep rest with
        | [] => [[c]]
        | p :: ps => (c :: p) :: ps := by
  show pySplitF sep (c :: rest).length (c :: rest) = _
  simp only [List.length_cons, pySplitF]
  by_cases hc : sep ≠ [] ∧ isPre sep (c :: rest) = true
  · rw [if_pos hc, if_pos hc]
    have hd : ((c :: rest).drop sep.length).length ≤ rest.length := by
      have := sep_length_pos hc.1
      simp only [List.length_drop, List.length_cons]
      omega
    rw [pySplitF_fuel_eq sep rest.length _ _ hd (le_refl _)]
    rfl
  · rw [if_neg hc, if_neg hc]
    rfl

theorem pySplit_no_occ (sep s : List Char) (hsep : sep ≠ [])
    (h : ∀ t, t <:+ s → isPre sep t = false) : pySplit sep s = [s] := by
  induction s with
  | nil =>
    rw [pySplit_nil]
  | cons c rest ih =>
    rw [pySplit_cons]
    rw [if_neg (by
      intro hc
      exact absurd (h (c :: rest) (List.suffix_refl _)) (by simp [hc.2]))]
    rw [ih (fun t ht => h t (ht.trans (List.suffix_cons c rest)))]

theorem isPre_append_self (p x : List Char) : isPre p (p ++ x) = true := by
  induction p with
  | nil => rfl
  | cons c p' ih => simp [isPre, ih]

theorem pySplit_append (sep a b : List Char) (hsep : sep ≠ [])
    (h : ∀ t, t ≠ [] → t <:+ a → isPre sep (t ++ sep ++ b) = false) :
    pySplit sep (a ++ sep ++ b) = a :: pySplit sep b := by
  induction a with
  | nil =>
    obtain ⟨c, sep', rfl⟩ : ∃ c sep', sep = c :: sep' := by
      cases sep
      · exact absurd rfl hsep
      · exact ⟨_, _, rfl⟩
    simp only [List.nil_append, List.cons_append]
    rw [pySplit_cons]
    rw [if_pos ⟨hsep, by
      have := isPre_append_self (c :: sep') b
      simpa using this⟩]
    congr 1
    rw [show c :: (sep' ++ b) = (c :: sep') ++ b from rfl, List.drop_left]
  | cons c a' ih =>
    simp only [List.cons_append]
    rw [pySplit_cons]
    rw [if_neg (by
      intro hc
      have h2 := h (c :: a') (by simp) (List.suffix_refl _)
      simp only [List.cons_append, List.append_assoc] at h2 hc
      exact absurd hc.2 (by simp [h2]))]
    rw [ih (fun t ht hta => h t ht (hta.trans (List.suffix_cons c a')))]

theorem joinSep_cons₂ (sep x y : List Char) (rest : List (List Char)) :
    joinSep sep (x :: y :: rest) = x ++ sep ++ joinSep sep (y :: rest) := rfl

theorem pySplit_joinSep_single (c : Char) (L : List (List Char))
    (hL : ∀ l ∈ L, c ∉ l) (hne : L ≠ []) :
    pySplit [c] (joinSep [c] L) = L := by
  induction L with
  | nil => exact absurd rfl hne
  | cons l L' ih =>
    cases L' with
    | nil =>
      show pySplit [c] l = [l]
      refine pySplit_no_occ _ _ (by simp) (fun t ht => ?_)
      cases t with
      | nil => rfl
      | cons x t' =>
        have hx : x ∈ l := ht.subset (List.mem_cons_self x t')
        have : x ≠ c := fun hxc => hL l (List.mem_cons_self l []) (hxc ▸ hx)
        simp [isPre, Ne.symm this]
    | cons y L'' =>
      rw [joinSep_cons₂]
      rw [pySplit_append [c] l _ (by simp) (fun t ht hta => ?_)]
      · rw [ih (fun l' hl' => hL l' (List.mem_cons_of_mem l hl')) (by simp)]
      · cases t with
        | nil => exact absurd rfl ht
        | cons x t' =>
          have hx : x ∈ l := hta.subset (List.mem_cons_self x t')
          have : x ≠ c := fun hxc => hL l (List.mem_cons_self l _) (hxc ▸ hx)
          simp [isPre, Ne.symm this]

/-! Machinery for `pyStrip` and `joinSep`. -/

theorem dropWhile_head_false {p : Char → Bool} {l : List Char}
    (h : ∀ c, l.head? = some c → p c = false) : l.dropWhile p = l := by
  cases l with
  | nil => rfl
  | cons c t => simp [List.dropWhile_cons, h c rfl]

theorem dropWhile_all_false {p : Char → Bool} {l : List Char}
    (h : ∀ c ∈ l, p c = false) : l.dropWhile p = l := by
  induction l with
  | nil => rfl
  | cons c t ih =>
    simp [List.dropWhile_cons, h c (List.mem_cons_self c t),
      ih fun d hd => h d (List.mem_cons_of_mem c hd)]

theorem mem_of_head? {l : List Char} {c : Char} (h : l.head? = some c) : c ∈ l := by
  cases l with
  | nil => simp at h
  | cons a t =>
    simp only [List.head?_cons, Option.some.injEq] at h
    exact h ▸ List.mem_cons_self a t

theorem pyStrip_eq_self (s : List Char)
    (h1 : ∀ c, s.head? = some c → isWS c = false)
    (h2 : ∀ c, s.getLast? = some c → isWS c = false) : pyStrip s = s := by
  unfold pyStrip
  rw [dropWhile_head_false h1,
    dropWhile_head_false (fun c hc => h2 c (by rwa [List.head?_reverse] at hc)),
    List.reverse_reverse]

theorem pyStrip_of_no_ws (s : List Char) (h : ∀ c ∈ s, isWS c = false) :
    pyStrip s = s :=
  pyStrip_eq_self s (fun c hc => h c (mem_of_head? hc))
    (fun c hc => h c (List.mem_of_getLast?_eq_some hc))

theorem pyStrip_append_ws (a w : List Char) (hane : a ≠ [])
    (ha : ∀ c ∈ a, isWS c = false) (hw : ∀ c ∈ w, isWS c = true) :
    pyStrip (a ++ w) = a := by
  unfold pyStrip
  obtain ⟨c, a', rfl⟩ : ∃ c a', a = c :: a' := by
    cases a
    · exact absurd rfl hane
    · exact ⟨_, _, rfl⟩
  rw [List.cons_append, List.dropWhile_cons,
    if_neg (by simp [ha c (List.mem_cons_self c a')])]
  rw [show c :: (a' ++ w) = (c :: a') ++ w from rfl, List.reverse_append,
    List.dropWhile_append_of_pos (by intro x hx; simpa using hw x (List.mem_reverse.mp hx)),
    dropWhile_all_false (fun x hx => ha x (List.mem_reverse.mp hx)),
    List.reverse_reverse]

theorem pyStrip_ws_append (w a : List Char)
    (hw : ∀ c ∈ w, isWS c = true) (ha : ∀ c ∈ a, isWS c = false) :
    pyStrip (w ++ a) = a := by
  unfold pyStrip
  rw [List.dropWhile_append_of_pos (by intro x hx; simpa using hw x hx),
    dropWhile_all_false ha,
    dropWhile_all_false (fun x hx => ha x (List.mem_reverse.mp hx)),
    List.reverse_reverse]

theorem joinSep_ne_nil (sep : List Char) (y : List Char) (rest : List (List Char))
    (hy : y ≠ []) : joinSep sep (y :: rest) ≠ [] := by
  cases rest with
  | nil => simpa [joinSep]
  | cons z rest' => simp [joinSep_cons₂, hy]

theorem joinSep_head? (sep l : List Char) (L : List (List Char)) (hl : l ≠ []) :
    (joinSep sep (l :: L)).head? = l.head? := by
  cases L with
  | nil => rfl
  | cons y rest =>
    cases l with
    | nil => exact absurd rfl hl
    | cons c l' => rfl

theorem joinSep_getLast? (sep : List Char) :
    ∀ (L : List (List Char)), L ≠ [] → (∀ x ∈ L, x ≠ []) →
      (joinSep sep L).getLast? = L.getLast?.bind (fun l => l.getLast?) := by
  intro L
  induction L with
  | nil => intro h _; exact absurd rfl h
  | cons l L' ih =>
    intro _ hx
    cases L' with
    | nil => simp [joinSep]
    | cons y rest =>
      rw [joinSep_cons₂, List.getLast?_append]
      have hJ : joinSep sep (y :: rest) ≠ [] :=
        joinSep_ne_nil sep y rest (hx y (List.mem_cons_of_mem l (List.mem_cons_self y rest)))
      rw [ih (by simp) (fun x hxm => hx x (List.mem_cons_of_mem l hxm))]
      obtain ⟨c, hc⟩ : ∃ c, (y :: rest).getLast? = some c := by
        cases h : (y :: rest).getLast?
        · simp at h
        · exact ⟨_, rfl⟩
      obtain ⟨d, hd⟩ : ∃ d, c.getLast? = some d := by
        have hcne : c ≠ [] := hx c (List.mem_cons_of_mem l (List.mem_of_getLast?_eq_some hc))
        cases h : c.getLast?
        · simp_all
        · exact ⟨_, rfl⟩
      simp [hc, hd, List.getLast?_cons_cons]

theorem suffix_append_split {α : Type} {t u v : List α} (h : t <:+ u ++ v) :
    t <:+ v ∨ ∃ u₂, u₂ <:+ u ∧ t = u₂ ++ v := by
  induction u with
  | nil => exact Or.inl (by simpa using h)
  | cons c u' ih =>
    rw [List.cons_append, List.suffix_cons_iff] at h
    cases h with
    | inl he => exact Or.inr ⟨c :: u', List.suffix_refl _, by simpa using he⟩
    | inr hs =>
      cases ih hs with
      | inl h1 => exact Or.inl h1
      | inr h2 =>
        obtain ⟨u₂, hu, he⟩ := h2
        exact Or.inr ⟨u₂, hu.trans (List.suffix_cons c u'), he⟩

theorem joinSep_nl_no_nn :
    ∀ (L : List (List Char)), (∀ l ∈ L, l ≠ [] ∧ '\n' ∉ l) →
      ∀ t, t <:+ joinSep ['\n'] L → isPre ['\n', '\n'] t = false := by
  intro L
  induction L with
  | nil =>
    intro _ t ht
    have : t = [] := by simpa [joinSep] using ht
    subst this
    rfl
  | cons l L' ih =>
    intro hL t ht
    have hl := hL l (List.mem_cons_self l L')
    cases L' with
    | nil =>
      cases t with
      | nil => rfl
      | cons x t' =>
        have hx : x ∈ l := ht.subset (List.mem_cons_self x t')
        have hxe : ('\n' == x) = false :=
          beq_eq_false_iff_ne.mpr (fun he => hl.2 (he ▸ hx))
        simp [isPre, hxe]
    | cons y rest =>
      have hy := hL y (List.mem_cons_of_mem l (List.mem_cons_self y rest))
      have hkey : isPre ['\n', '\n'] ('\n' :: joinSep ['\n'] (y :: rest)) = false := by
        obtain ⟨j, J', hJeq⟩ : ∃ j J', joinSep ['\n'] (y :: rest) = j :: J' := by
          cases h : joinSep ['\n'] (y :: rest)
          · exact absurd h (joinSep_ne_nil _ y rest hy.1)
          · exact ⟨_, _, rfl⟩
        have hjh : (joinSep ['\n'] (y :: rest)).head? = y.head? := joinSep_head? _ y rest hy.1
        rw [hJeq] at hjh
        have hj : j ∈ y := mem_of_head? hjh.symm
        have hje : ('\n' == j) = false :=
          beq_eq_false_iff_ne.mpr (fun he => hy.2 (he ▸ hj))
        simp [hJeq, isPre, hje]
      rw [joinSep_cons₂] at ht
      rw [List.append_assoc] at ht
      rcases suffix_append_split ht with hJ | ⟨u₂, hu, rfl⟩
      · rw [show ['\n'] ++ joinSep ['\n'] (y :: rest) = '\n' :: joinSep ['\n'] (y :: rest)
          from rfl, List.suffix_cons_iff] at hJ
        cases hJ with
        | inl he => rw [he]; exact hkey
        | inr hs => exact ih (fun x hxm => hL x (List.mem_cons_of_mem l hxm)) t hs
      · cases u₂ with
        | nil => simpa using hkey
        | cons x u₂' =>
          have hx : x ∈ l := hu.subset (List.mem_cons_self x u₂')
          have hxe : ('\n' == x) = false :=
            beq_eq_false_iff_ne.mpr (fun he => hl.2 (he ▸ hx))
          simp [isPre, hxe]

/-! Digit strings and timestamp parsing. -/

theorem digitChar_isDigit {d : Nat} (h : d < 10) : (digitChar d).isDigit = true := by
  interval_cases d <;> decide

theorem digitChar_toNat {d : Nat} (h : d < 10) : (digitChar d).toNat = 48 + d := by
  interval_cases d <;> decide

theorem digitChar_not_ws {d : Nat} (h : d < 10) : isWS (digitChar d) = false := by
  interval_cases d <;> decide

theorem digitChar_ne {d : Nat} (h : d < 10) {c : Char} (hc : c.isDigit = false) :
    digitChar d ≠ c := by
  intro he
  rw [← he] at hc
  rw [digitChar_isDigit h] at hc
  simp at hc

theorem mem_twoDig_small {n : Nat} (hn : n < 100) {c : Char} (hc : c ∈ twoDig n) :
    ∃ d, d < 10 ∧ c = digitChar d := by
  simp only [twoDig, List.mem_cons, List.mem_singleton, List.not_mem_nil, or_false] at hc
  cases hc with
  | inl h => exact ⟨n / 10, by omega, h⟩
  | inr h => exact ⟨n % 10, by omega, h⟩

theorem mem_threeDig {n : Nat} (hn : n < 1000) {c : Char} (hc : c ∈ threeDig n) :
    ∃ d, d < 10 ∧ c = digitChar d := by
  simp only [threeDig, List.mem_cons, List.mem_singleton, List.not_mem_nil, or_false] at hc
  rcases hc with h | h | h
  · exact ⟨n / 100, by omega, h⟩
  · exact ⟨n / 10 % 10, by omega, h⟩
  · exact ⟨n % 10, by omega, h⟩

theorem digitsVal_twoDig {n : Nat} (h : n < 100) : digitsVal (twoDig n) = n := by
  unfold digitsVal twoDig
  simp only [List.foldl]
  rw [digitChar_toNat (by omega : n / 10 < 10), digitChar_toNat (by omega : n % 10 < 10)]
  omega

theorem digitsVal_threeDig {n : Nat} (h : n < 1000) : digitsVal (threeDig n) = n := by
  unfold digitsVal threeDig
  simp only [List.foldl]
  rw [digitChar_toNat (by omega : n / 100 < 10), digitChar_toNat (by omega : n / 10 % 10 < 10),
    digitChar_toNat (by omega : n % 10 < 10)]
  omega

theorem pyParseInt_of_digitChars (l : List Char) (hne : l ≠ [])
    (hd : ∀ c ∈ l, ∃ d, d < 10 ∧ c = digitChar d) :
    pyParseInt l = some (digitsVal l : Int) := by
  unfold pyParseInt
  have hs : pyStrip l = l := pyStrip_of_no_ws l (fun c hc => by
    obtain ⟨d, hd10, rfl⟩ := hd c hc
    exact digitChar_not_ws hd10)
  rw [hs]
  obtain ⟨c0, l', rfl⟩ : ∃ c0 l', l = c0 :: l' := by
    cases l
    · exact absurd rfl hne
    · exact ⟨_, _, rfl⟩
  obtain ⟨d0, hd0, hc0⟩ := hd c0 (List.mem_cons_self c0 l')
  have hminus : ¬ ((c0 :: l').head? = some '-') := by
    simp only [List.head?_cons, Option.some.injEq]
    exact fun he => digitChar_ne hd0 (by decide) (hc0.symm.trans he)
  have hplus : ¬ ((c0 :: l').head? = some '+') := by
    simp only [List.head?_cons, Option.some.injEq]
    exact fun he => digitChar_ne hd0 (by decide) (hc0.symm.trans he)
  rw [if_neg hminus, if_neg hplus]
  rw [if_pos ⟨by simp, by
    rw [List.all_eq_true]
    intro c hc
    obtain ⟨d, hd10, rfl⟩ := hd c hc
    exact digitChar_isDigit hd10⟩]

theorem pyParseInt_twoDig {n : Nat} (h : n < 100) :
    pyParseInt (twoDig n) = some (n : Int) := by
  rw [pyParseInt_of_digitChars (twoDig n) (by simp [twoDig]) (fun c hc => mem_twoDig_small h hc),
    digitsVal_twoDig h]

theorem pyParseInt_threeDig {n : Nat} (h : n < 1000) :
    pyParseInt (threeDig n) = some (n : Int) := by
  rw [pyParseInt_of_digitChars (threeDig n) (by simp [threeDig]) (fun c hc => mem_threeDig h hc),
    digitsVal_threeDig h]

theorem no_single_cond {c : Char} {a b : List Char} (h : ∀ x ∈ a, x ≠ c) :
    ∀ t, t ≠ [] → t <:+ a → isPre [c] (t ++ [c] ++ b) = false := by
  intro t ht hta
  cases t with
  | nil => exact absurd rfl ht
  | cons x t' =>
    have hx : x ∈ a := hta.subset (List.mem_cons_self x t')
    simp [isPre, beq_eq_false_iff_ne.mpr (Ne.symm (h x hx))]

theorem no_occ_single {c : Char} {l : List Char} (h : ∀ x ∈ l, x ≠ c) :
    ∀ t, t <:+ l → isPre [c] t = false := by
  intro t ht
  cases t with
  | nil => rfl
  | cons x t' =>
    have hx : x ∈ l := ht.subset (List.mem_cons_self x t')
    simp [isPre, beq_eq_false_iff_ne.mpr (Ne.symm (h x hx))]

theorem pySplit_single_pair {c : Char} (a b : List Char)
    (ha : ∀ x ∈ a, x ≠ c) (hb : ∀ x ∈ b, x ≠ c) :
    pySplit [c] (a ++ [c] ++ b) = [a, b] := by
  rw [pySplit_append [c] a b (by simp) (no_single_cond ha),
    pySplit_no_occ [c] b (by simp) (no_occ_single hb)]

theorem pySplit_single_triple {c : Char} (a b d : List Char)
    (ha : ∀ x ∈ a, x ≠ c) (hb : ∀ x ∈ b, x ≠ c) (hd : ∀ x ∈ d, x ≠ c) :
    pySplit [c] (a ++ [c] ++ b ++ [c] ++ d) = [a, b, d] := by
  have he : a ++ [c] ++ b ++ [c] ++ d = a ++ [c] ++ (b ++ [c] ++ d) := by
    simp [List.append_assoc]
  rw [he, pySplit_append [c] a (b ++ [c] ++ d) (by simp) (no_single_cond ha),
    pySplit_single_pair b d hb hd]

theorem tsStr_eq (h m s ms : Nat) :
    tsStr h m s ms =
      (twoDig h ++ [':'] ++ twoDig m ++ [':'] ++ twoDig s) ++ [','] ++ threeDig ms := by
  simp [tsStr, List.append_assoc]

theorem timePart_chars {h m s : Nat} (hh : h < 100) (hm : m < 100) (hs : s < 100) :
    ∀ x ∈ twoDig h ++ [':'] ++ twoDig m ++ [':'] ++ twoDig s,
      (∃ d, d < 10 ∧ x = digitChar d) ∨ x = ':' := by
  intro x hx
  simp only [List.mem_append, List.mem_singleton] at hx
  rcases hx with (((hx | hx) | hx) | hx) | hx
  · exact Or.inl (mem_twoDig_small hh hx)
  · exact Or.inr hx
  · exact Or.inl (mem_twoDig_small hm hx)
  · exact Or.inr hx
  · exact Or.inl (mem_twoDig_small hs hx)

theorem tsStr_chars {h m s ms : Nat} (hh : h < 100) (hm : m < 100) (hs : s < 100)
    (hms : ms < 1000) :
    ∀ x ∈ tsStr h m s ms, (∃ d, d < 10 ∧ x = digitChar d) ∨ x = ':' ∨ x = ',' := by
  intro x hx
  rw [tsStr_eq] at hx
  rcases List.mem_append.mp hx with hx1 | hx3
  · rcases List.mem_append.mp hx1 with hx2 | hcomma
    · rcases timePart_chars hh hm hs x hx2 with hd | hc
      · exact Or.inl hd
      · exact Or.inr (Or.inl hc)
    · exact Or.inr (Or.inr (by simpa using hcomma))
  · exact Or.inl (mem_threeDig hms hx3)

theorem parse_srt_timestamp_tsStr {h m s ms : Nat} (hh : h < 100) (hm : m < 100)
    (hs : s < 100) (hms : ms < 1000) :
    parse_srt_timestamp (tsStr h m s ms) =
      some ((h : ℚ) * 3600 + (m : ℚ) * 60 + (s : ℚ) + (ms : ℚ) / 1000) := by
  have hA : ∀ x ∈ twoDig h ++ [':'] ++ twoDig m ++ [':'] ++ twoDig s, x ≠ ',' := by
    intro x hx
    rcases timePart_chars hh hm hs x hx with ⟨d, hd, rfl⟩ | rfl
    · exact digitChar_ne hd (by decide)
    · decide
  have hB : ∀ x ∈ threeDig ms, x ≠ ',' := by
    intro x hx
    obtain ⟨d, hd, rfl⟩ := mem_threeDig hms hx
    exact digitChar_ne hd (by decide)
  have hcol : ∀ (n : Nat), n < 100 → ∀ x ∈ twoDig n, x ≠ ':' := by
    intro n hn x hx
    obtain ⟨d, hd, rfl⟩ := mem_twoDig_small hn hx
    exact digitChar_ne hd (by decide)
  have h1 : pySplit (str ",") (tsStr h m s ms) =
      [twoDig h ++ [':'] ++ twoDig m ++ [':'] ++ twoDig s, threeDig ms] := by
    rw [tsStr_eq]
    exact pySplit_single_pair _ _ hA hB
  have h2 : pySplit (str ":") (twoDig h ++ [':'] ++ twoDig m ++ [':'] ++ twoDig s) =
      [twoDig h, twoDig m, twoDig s] :=
    pySplit_single_triple _ _ _ (hcol h hh) (hcol m hm) (hcol s hs)
  unfold parse_srt_timestamp
  rw [h1]
  simp only
  rw [h2]
  simp only
  rw [pyParseInt_twoDig hh, pyParseInt_twoDig hm, pyParseInt_twoDig hs,
    pyParseInt_threeDig hms]
  simp only [Int.cast_natCast]

/-! The `" --> "` separator and the assembled single-block parse. -/

theorem str_arrow_eq : str " --> " = [' ', '-', '-', '>', ' '] := rfl

theorem not_nl_of_not_ws {c : Char} (h : isWS c = false) : c ≠ '\n' := by
  intro he
  subst he
  exact absurd h (by decide)

theorem arrow_cond {a b : List Char} (hnd : ∀ c ∈ a, c ≠ '-') :
    ∀ t, t ≠ [] → t <:+ a → isPre (str " --> ") (t ++ str " --> " ++ b) = false := by
  intro t ht hta
  obtain ⟨x, t', rfl⟩ : ∃ x t', t = x :: t' := by
    cases t
    · exact absurd rfl ht
    · exact ⟨_, _, rfl⟩
  rw [str_arrow_eq]
  cases t' with
  | nil => simp [isPre]
  | cons y t'' =>
    have hy : y ∈ a := hta.subset (by simp)
    simp [isPre, beq_eq_false_iff_ne.mpr (Ne.symm (hnd y hy))]

theorem arrow_no_occ {l : List Char} (hnd : ∀ c ∈ l, c ≠ '-') :
    ∀ t, t <:+ l → isPre (str " --> ") t = false := by
  intro t ht
  cases t with
  | nil => rfl
  | cons x t' =>
    rw [str_arrow_eq]
    cases t' with
    | nil => simp [isPre]
    | cons y t'' =>
      have hy : y ∈ l := ht.subset (by simp)
      simp [isPre, beq_eq_false_iff_ne.mpr (Ne.symm (hnd y hy))]

theorem pySplit_arrow_pair (a b : List Char)
    (ha : ∀ c ∈ a, c ≠ '-') (hb : ∀ c ∈ b, c ≠ '-') :
    pySplit (str " --> ") (a ++ str " --> " ++ b) = [a, b] := by
  rw [pySplit_append (str " --> ") a b (by rw [str_arrow_eq]; simp) (arrow_cond ha),
    pySplit_no_occ (str " --> ") b (by rw [str_arrow_eq]; simp) (arrow_no_occ hb)]

theorem tsStr_not_dash {h m s ms : Nat} (hh : h < 100) (hm : m < 100) (hs : s < 100)
    (hms : ms < 1000) : ∀ c ∈ tsStr h m s ms, c ≠ '-' := by
  intro c hc
  rcases tsStr_chars hh hm hs hms c hc with ⟨d, hd, rfl⟩ | rfl | rfl
  · exact digitChar_ne hd (by decide)
  · decide
  · decide

theorem tsStr_not_ws {h m s ms : Nat} (hh : h < 100) (hm : m < 100) (hs : s < 100)
    (hms : ms < 1000) : ∀ c ∈ tsStr h m s ms, isWS c = false := by
  intro c hc
  rcases tsStr_chars hh hm hs hms c hc with ⟨d, hd, rfl⟩ | rfl | rfl
  · exact digitChar_not_ws hd
  · decide
  · decide

theorem tsStr_ne_nil (h m s ms : Nat) : tsStr h m s ms ≠ [] := by
  simp [tsStr, twoDig]

theorem ws_not_dash {w : List Char} (hw : ∀ c ∈ w, c = ' ' ∨ c = '\t') :
    ∀ c ∈ w, c ≠ '-' := by
  intro c hc
  rcases hw c hc with rfl | rfl <;> decide

theorem ws_is_ws {w : List Char} (hw : ∀ c ∈ w, c = ' ' ∨ c = '\t') :
    ∀ c ∈ w, isWS c = true := by
  intro c hc
  rcases hw c hc with rfl | rfl <;> decide

theorem mkTiming_split (ws1 ws2 : List Char) (h1 m1 s1 ms1 h2 m2 s2 ms2 : Nat)
    (hh1 : h1 < 100) (hm1 : m1 < 100) (hs1 : s1 < 100) (hms1 : ms1 < 1000)
    (hh2 : h2 < 100) (hm2 : m2 < 100) (hs2 : s2 < 100) (hms2 : ms2 < 1000)
    (hws1 : ∀ c ∈ ws1, c = ' ' ∨ c = '\t') (hws2 : ∀ c ∈ ws2, c = ' ' ∨ c = '\t') :
    pySplit (str " --> ") (mkTiming ws1 ws2 h1 m1 s1 ms1 h2 m2 s2 ms2) =
      [tsStr h1 m1 s1 ms1 ++ ws1, ws2 ++ tsStr h2 m2 s2 ms2] := by
  have he : mkTiming ws1 ws2 h1 m1 s1 ms1 h2 m2 s2 ms2 =
      (tsStr h1 m1 s1 ms1 ++ ws1) ++ str " --> " ++ (ws2 ++ tsStr h2 m2 s2 ms2) := by
    simp [mkTiming, List.append_assoc]
  rw [he]
  refine pySplit_arrow_pair _ _ (fun c hc => ?_) (fun c hc => ?_)
  · rcases List.mem_append.mp hc with h | h
    · exact tsStr_not_dash hh1 hm1 hs1 hms1 c h
    · exact ws_not_dash hws1 c h
  · rcases List.mem_append.mp hc with h | h
    · exact ws_not_dash hws2 c h
    · exact tsStr_not_dash hh2 hm2 hs2 hms2 c h

theorem parse_srt_single_block
    (idx ws1 ws2 t1 : List Char) (trest : List (List Char))
    (h1 m1 s1 ms1 h2 m2 s2 ms2 : Nat)
    (hh1 : h1 < 100) (hm1 : m1 < 100) (hs1 : s1 < 100) (hms1 : ms1 < 1000)
    (hh2 : h2 < 100) (hm2 : m2 < 100) (hs2 : s2 < 100) (hms2 : ms2 < 1000)
    (hidx : idx ≠ []) (hidxc : ∀ c ∈ idx, isWS c = false)
    (hws1 : ∀ c ∈ ws1, c = ' ' ∨ c = '\t') (hws2 : ∀ c ∈ ws2, c = ' ' ∨ c = '\t')
    (hlines : ∀ l ∈ t1 :: trest, l ≠ [] ∧ '\n' ∉ l)
    (hlast : (((t1 :: trest).getLast?.bind fun l => l.getLast?).all fun c => !isWS c) = true)
    (htext : pyStrip (joinSep (str " ") (t1 :: trest)) ≠ []) :
    parse_srt (mkContent idx (mkTiming ws1 ws2 h1 m1 s1 ms1 h2 m2 s2 ms2) (t1 :: trest)) =
      [⟨(h1 : ℚ) * 3600 + (m1 : ℚ) * 60 + (s1 : ℚ) + (ms1 : ℚ) / 1000,
        (h2 : ℚ) * 3600 + (m2 : ℚ) * 60 + (s2 : ℚ) + (ms2 : ℚ) / 1000,
        pyStrip (joinSep (str " ") (t1 :: trest))⟩] := by
  set timing := mkTiming ws1 ws2 h1 m1 s1 ms1 h2 m2 s2 ms2 with htiming
  have htiming_nn : '\n' ∉ timing := by
    intro hc
    rw [htiming] at hc
    simp only [mkTiming] at hc
    rcases List.mem_append.mp hc with hc1 | hcB
    · rcases List.mem_append.mp hc1 with hc2 | hcw2
      · rcases List.mem_append.mp hc2 with hc3 | hcarr
        · rcases List.mem_append.mp hc3 with hcA | hcw1
          · exact absurd (tsStr_not_ws hh1 hm1 hs1 hms1 _ hcA) (by decide)
          · rcases hws1 _ hcw1 with he | he <;> exact absurd he (by decide)
        · rw [str_arrow_eq] at hcarr
          simp at hcarr
      · rcases hws2 _ hcw2 with he | he <;> exact absurd he (by decide)
    · exact absurd (tsStr_not_ws hh2 hm2 hs2 hms2 _ hcB) (by decide)
  have htiming_ne : timing ≠ [] := by
    rw [htiming]
    simp [mkTiming, tsStr, twoDig]
  have hLnn : ∀ l ∈ idx :: timing :: t1 :: trest, l ≠ [] ∧ '\n' ∉ l := by
    intro l hl
    rcases List.mem_cons.mp hl with rfl | hl2
    · exact ⟨hidx, fun hc => absurd (hidxc _ hc) (by decide)⟩
    · rcases List.mem_cons.mp hl2 with rfl | hl3
      · exact ⟨htiming_ne, htiming_nn⟩
      · exact hlines l hl3
  have hnl : str "\n" = ['\n'] := rfl
  have hnl2 : str "\n\n" = ['\n', '\n'] := rfl
  set content := mkContent idx timing (t1 :: trest) with hcontent
  have hcJ : content = joinSep ['\n'] (idx :: timing :: t1 :: trest) := by
    rw [hcontent]
    simp only [mkContent, hnl]
  have hhead : ∀ c, content.head? = some c → isWS c = false := by
    intro c hc
    rw [hcJ, joinSep_head? ['\n'] idx _ hidx] at hc
    exact hidxc c (mem_of_head? hc)
  have hlastc : ∀ c, content.getLast? = some c → isWS c = false := by
    intro c hc
    rw [hcJ, joinSep_getLast? ['\n'] _ (by simp) (fun x hx => (hLnn x hx).1),
      List.getLast?_cons_cons, List.getLast?_cons_cons] at hc
    cases hop : (t1 :: trest).getLast?.bind fun l => l.getLast? with
    | none => rw [hop] at hc; exact absurd hc (by simp)
    | some d =>
      rw [hop] at hc hlast
      simp only [Option.some.injEq] at hc
      subst hc
      simpa using hlast
  have hstrip : pyStrip content = content := pyStrip_eq_self content hhead hlastc
  have hblocks : pySplit (str "\n\n") content = [content] := by
    rw [hnl2, hcJ]
    exact pySplit_no_occ _ _ (by simp)
      (joinSep_nl_no_nn (idx :: timing :: t1 :: trest) hLnn)
  have hlines_split : pySplit (str "\n") content = idx :: timing :: t1 :: trest := by
    rw [hnl, hcJ]
    exact pySplit_joinSep_single '\n' _ (fun l hl => (hLnn l hl).2) (by simp)
  have hts : pySplit (str " --> ") timing =
      [tsStr h1 m1 s1 ms1 ++ ws1, ws2 ++ tsStr h2 m2 s2 ms2] := by
    rw [htiming]
    exact mkTiming_split ws1 ws2 h1 m1 s1 ms1 h2 m2 s2 ms2
      hh1 hm1 hs1 hms1 hh2 hm2 hs2 hms2 hws1 hws2
  have hstrip1 : pyStrip (tsStr h1 m1 s1 ms1 ++ ws1) = tsStr h1 m1 s1 ms1 :=
    pyStrip_append_ws _ _ (tsStr_ne_nil h1 m1 s1 ms1)
      (tsStr_not_ws hh1 hm1 hs1 hms1) (ws_is_ws hws1)
  have hstrip2 : pyStrip (ws2 ++ tsStr h2 m2 s2 ms2) = tsStr h2 m2 s2 ms2 :=
    pyStrip_ws_append _ _ (ws_is_ws hws2) (tsStr_not_ws hh2 hm2 hs2 hms2)
  have hpb : parse_block content =
      some ⟨(h1 : ℚ) * 3600 + (m1 : ℚ) * 60 + (s1 : ℚ) + (ms1 : ℚ) / 1000,
        (h2 : ℚ) * 3600 + (m2 : ℚ) * 60 + (s2 : ℚ) + (ms2 : ℚ) / 1000,
        pyStrip (joinSep (str " ") (t1 :: trest))⟩ := by
    simp only [parse_block, hstrip, hlines_split, hts, hstrip1, hstrip2,
      parse_srt_timestamp_tsStr hh1 hm1 hs1 hms1,
      parse_srt_timestamp_tsStr hh2 hm2 hs2 hms2]
    rw [if_pos htext]
  show parse_srt content = _
  unfold parse_srt
  rw [hstrip, hblocks]
  simp [List.filterMap, hpb]

/-- C1: a single well-formed caption block — an index line, a timing line
with two valid `HH:MM:SS,mmm` timestamps around `" --> "`, and at least
one text line whose joined stripped text is non-empty — parses to exactly
one segment whose start and end are `H*3600 + M*60 + S + ms/1000` of the
respective timestamp and whose text is the lines from the third onward
joined with single spaces and stripped. -/
theorem c1_single_block (idx t1 : List Char) (trest : List (List Char))
    (h1 m1 s1 ms1 h2 m2 s2 ms2 : Nat)
    (hh1 : h1 < 100) (hm1 : m1 < 100) (hs1 : s1 < 100) (hms1 : ms1 < 1000)
    (hh2 : h2 < 100) (hm2 : m2 < 100) (hs2 : s2 < 100) (hms2 : ms2 < 1000)
    (hidx : idx ≠ []) (hidxc : ∀ c ∈ idx, isWS c = false)
    (hlines : ∀ l ∈ t1 :: trest, l ≠ [] ∧ '\n' ∉ l)
    (hlast : (((t1 :: trest).getLast?.bind fun l => l.getLast?).all fun c => !isWS c) = true)
    (htext : pyStrip (joinSep (str " ") (t1 :: trest)) ≠ []) :
    parse_srt (mkContent idx (mkTiming [] [] h1 m1 s1 ms1 h2 m2 s2 ms2) (t1 :: trest)) =
      [⟨(h1 : ℚ) * 3600 + (m1 : ℚ) * 60 + (s1 : ℚ) + (ms1 : ℚ) / 1000,
        (h2 : ℚ) * 3600 + (m2 : ℚ) * 60 + (s2 : ℚ) + (ms2 : ℚ) / 1000,
        pyStrip (joinSep (str " ") (t1 :: trest))⟩] :=
  parse_srt_single_block idx [] [] t1 trest h1 m1 s1 ms1 h2 m2 s2 ms2
    hh1 hm1 hs1 hms1 hh2 hm2 hs2 hms2 hidx hidxc (by simp) (by simp)
    hlines hlast htext

/-- C1 witness: the block `"1\nHH:MM:SS pair\nHello"` parses to the single
expected segment. -/
theorem c1_single_block_witness :
    parse_srt (mkContent (str "1") (mkTiming [] [] 0 0 1 0 0 0 2 500) [str "Hello"]) =
      [⟨(0 : ℚ) * 3600 + (0 : ℚ) * 60 + (1 : ℚ) + (0 : ℚ) / 1000,
        (0 : ℚ) * 3600 + (0 : ℚ) * 60 + (2 : ℚ) + (500 : ℚ) / 1000,
        pyStrip (joinSep (str " ") [str "Hello"])⟩] :=
  c1_single_block (str "1") (str "Hello") [] 0 0 1 0 0 0 2 500
    (by decide) (by decide) (by decide) (by decide)
    (by decide) (by decide) (by decide) (by decide)
    (by decide) (by decide) (by decide) (by decide) (by decide)

/-- C9: an otherwise well-formed block whose timing line carries extra
space/tab runs around the `" --> "` separator parses to the same result as
the block without them, because each half is stripped before parsing. -/
theorem c9_whitespace_around_arrow (idx ws1 ws2 t1 : List Char) (trest : List (List Char))
    (h1 m1 s1 ms1 h2 m2 s2 ms2 : Nat)
    (hh1 : h1 < 100) (hm1 : m1 < 100) (hs1 : s1 < 100) (hms1 : ms1 < 1000)
    (hh2 : h2 < 100) (hm2 : m2 < 100) (hs2 : s2 < 100) (hms2 : ms2 < 1000)
    (hidx : idx ≠ []) (hidxc : ∀ c ∈ idx, isWS c = false)
    (hws1 : ∀ c ∈ ws1, c = ' ' ∨ c = '\t') (hws2 : ∀ c ∈ ws2, c = ' ' ∨ c = '\t')
    (hlines : ∀ l ∈ t1 :: trest, l ≠ [] ∧ '\n' ∉ l)
    (hlast : (((t1 :: trest).getLast?.bind fun l => l.getLast?).all fun c => !isWS c) = true)
    (htext : pyStrip (joinSep (str " ") (t1 :: trest)) ≠ []) :
    parse_srt (mkContent idx (mkTiming ws1 ws2 h1 m1 s1 ms1 h2 m2 s2 ms2) (t1 :: trest)) =
      parse_srt (mkContent idx (mkTiming [] [] h1 m1 s1 ms1 h2 m2 s2 ms2) (t1 :: trest)) := by
  rw [parse_srt_single_block idx ws1 ws2 t1 trest h1 m1 s1 ms1 h2 m2 s2 ms2
      hh1 hm1 hs1 hms1 hh2 hm2 hs2 hms2 hidx hidxc hws1 hws2 hlines hlast htext,
    parse_srt_single_block idx [] [] t1 trest h1 m1 s1 ms1 h2 m2 s2 ms2
      hh1 hm1 hs1 hms1 hh2 hm2 hs2 hms2 hidx hidxc (by simp) (by simp)
      hlines hlast htext]

/-- C9 witness: one extra space before and a space-tab run after the
separator leave the parse unchanged. -/
theorem c9_whitespace_around_arrow_witness :
    parse_srt (mkContent (str "1")
        (mkTiming [' '] [' ', '\t'] 0 0 1 0 0 0 2 500) [str "Hello"]) =
      parse_srt (mkContent (str "1")
        (mkTiming [] [] 0 0 1 0 0 0 2 500) [str "Hello"]) :=
  c9_whitespace_around_arrow (str "1") [' '] [' ', '\t'] (str "Hello") [] 0 0 1 0 0 0 2 500
    (by decide) (by decide) (by decide) (by decide)
    (by decide) (by decide) (by decide) (by decide)
    (by decide) (by decide) (by decide) (by decide)
    (by decide) (by decide) (by decide)

theorem parse_block_none_of_bad (b : List Char) (hbad : badBlock b = true) :
    parse_block b = none := by
  unfold badBlock at hbad
  unfold parse_block
  cases hl : pySplit (str "\n") (pyStrip b) with
  | nil => rfl
  | cons l0 rest0 =>
    cases rest0 with
    | nil => rfl
    | cons l1 rest1 =>
      cases rest1 with
      | nil => rfl
      | cons l2 rest2 =>
        rw [hl] at hbad
        simp only [List.length_cons, List.getElem?_cons_succ,
          List.getElem?_cons_zero] at hbad
        rw [decide_eq_false (by omega)] at hbad
        simp only [Bool.false_or] at hbad
        show (match pySplit (str " --> ") l1 with
          | [start_ts, end_ts] =>
            match parse_srt_timestamp (pyStrip start_ts),
                parse_srt_timestamp (pyStrip end_ts) with
            | some s, some e =>
              let text := pyStrip (joinSep (str " ") (l2 :: rest2))
              if text ≠ [] then some (Segment.mk s e text) else none
            | _, _ => none
          | _ => none) = none
        cases harr : pySplit (str " --> ") l1 with
        | nil => rfl
        | cons ts1 r1 =>
          cases r1 with
          | nil => rfl
          | cons ts2 r2 =>
            cases r2 with
            | cons ts3 r3 => rfl
            | nil =>
              rw [harr] at hbad
              simp only [] at hbad
              show (match parse_srt_timestamp (pyStrip ts1),
                  parse_srt_timestamp (pyStrip ts2) with
                | some s, some e =>
                  let text := pyStrip (joinSep (str " ") (l2 :: rest2))
                  if text ≠ [] then some (Segment.mk s e text) else none
                | _, _ => none) = none
              cases hp1 : parse_srt_timestamp (pyStrip ts1) with
              | none => rfl
              | some q1 =>
                cases hp2 : parse_srt_timestamp (pyStrip ts2) with
                | none => rfl
                | some q2 =>
                  rw [hp1, hp2] at hbad
                  simp at hbad

/-- C2: parsing degrades by omission — for any input whose block list
contains a structurally failing block (fewer than three lines, a timing
line that does not split in two around `" --> "`, or unparsable timestamp
halves), that block contributes no segment while every other block is
still processed in order; the parse is total, so it never fails as a
whole. -/
theorem c2_bad_block_skipped (content : List Char) (u v : List (List Char)) (b : List Char)
    (hsplit : pySplit (str "\n\n") (pyStrip content) = u ++ b :: v)
    (hbad : badBlock b = true) :
    parse_srt content = u.filterMap parse_block ++ v.filterMap parse_block := by
  unfold parse_srt
  rw [hsplit, List.filterMap_append, List.filterMap_cons,
    parse_block_none_of_bad b hbad]

/-- C2 witness: a three-block input whose middle block is the single word
`broken` parses to the segments of the first and third blocks only. -/
theorem c2_bad_block_skipped_witness :
    parse_srt (str "1\n00:00:00,000 --> 00:00:01,500\nHello\n\nbroken\n\n2\n00:00:02,000 --> 00:00:03,000\nWorld") =
      List.filterMap parse_block [str "1\n00:00:00,000 --> 00:00:01,500\nHello"] ++
        List.filterMap parse_block [str "2\n00:00:02,000 --> 00:00:03,000\nWorld"] :=
  c2_bad_block_skipped
    (str "1\n00:00:00,000 --> 00:00:01,500\nHello\n\nbroken\n\n2\n00:00:02,000 --> 00:00:03,000\nWorld")
    [str "1\n00:00:00,000 --> 00:00:01,500\nHello"]
    [str "2\n00:00:02,000 --> 00:00:03,000\nWorld"]
    (str "broken") (by decide) (by decide)

/-! Machinery for the segment invariant (C8). -/

theorem dropWhile_head_prop {p : Char → Bool} :
    ∀ (l : List Char) (c : Char), (l.dropWhile p).head? = some c → p c = false := by
  intro l
  induction l with
  | nil => intro c hc; simp at hc
  | cons a t ih =>
    intro c hc
    rw [List.dropWhile_cons] at hc
    by_cases hpa : p a = true
    · rw [if_pos hpa] at hc
      exact ih c hc
    · rw [if_neg hpa] at hc
      simp only [List.head?_cons, Option.some.injEq] at hc
      subst hc
      simpa using hpa

theorem getLast?_of_suffix {α : Type} {l₁ l₂ : List α} (h : l₁ <:+ l₂) (hne : l₁ ≠ []) :
    l₂.getLast? = l₁.getLast? := by
  obtain ⟨t, rfl⟩ := h
  rw [List.getLast?_append]
  obtain ⟨c, hc⟩ : ∃ c, l₁.getLast? = some c := by
    cases h : l₁.getLast?
    · simp_all
    · exact ⟨_, rfl⟩
  simp [hc]

theorem pyStrip_idem (l : List Char) : pyStrip (pyStrip l) = pyStrip l := by
  cases hne : pyStrip l with
  | nil => rfl
  | cons a t =>
    rw [← hne]
    refine pyStrip_eq_self (pyStrip l) ?_ ?_
    · intro c hc
      unfold pyStrip at hc
      rw [List.head?_reverse] at hc
      have hX : (((l.dropWhile isWS).reverse.dropWhile isWS)) ≠ [] := by
        intro he
        rw [pyStrip, he] at hne
        simp at hne
      rw [← getLast?_of_suffix (List.dropWhile_suffix isWS) hX, List.getLast?_reverse] at hc
      exact dropWhile_head_prop l c hc
    · intro c hc
      unfold pyStrip at hc
      rw [List.getLast?_reverse] at hc
      exact dropWhile_head_prop _ c hc

theorem pyStrip_subset (l : List Char) : pyStrip l ⊆ l := by
  intro c hc
  unfold pyStrip at hc
  rw [List.mem_reverse] at hc
  have h1 := (List.dropWhile_suffix isWS).subset hc
  rw [List.mem_reverse] at h1
  exact (List.dropWhile_suffix isWS).subset h1

theorem pySplitF_mem (sep : List Char) :
    ∀ f s p, p ∈ pySplitF sep f s → ∀ c ∈ p, c ∈ s := by
  intro f
  induction f with
  | zero =>
    intro s p hp c hc
    cases s with
    | nil =>
      rw [pySplitF_nil] at hp
      simp only [List.mem_singleton] at hp
      subst hp
      simp at hc
    | cons a rest =>
      simp only [pySplitF, List.mem_singleton] at hp
      subst hp
      exact hc
  | succ f ih =>
    intro s p hp c hc
    cases s with
    | nil =>
      rw [pySplitF_nil] at hp
      simp only [List.mem_singleton] at hp
      subst hp
      simp at hc
    | cons a rest =>
      simp only [pySplitF] at hp
      by_cases hcond : sep ≠ [] ∧ isPre sep (a :: rest) = true
      · rw [if_pos hcond] at hp
        rcases List.mem_cons.mp hp with rfl | hp2
        · simp at hc
        · exact List.drop_subset _ _ (ih _ p hp2 c hc)
      · rw [if_neg hcond] at hp
        cases hrec : pySplitF sep f rest with
        | nil =>
          rw [hrec] at hp
          simp only [List.mem_singleton] at hp
          subst hp
          simp only [List.mem_singleton] at hc
          subst hc
          simp
        | cons p0 ps =>
          rw [hrec] at hp
          rcases List.mem_cons.mp hp with rfl | hp2
          · rcases List.mem_cons.mp hc with rfl | hc2
            · simp
            · exact List.mem_cons_of_mem a
                (ih rest p0 (by rw [hrec]; exact List.mem_cons_self p0 ps) c hc2)
          · exact List.mem_cons_of_mem a
              (ih rest p (by rw [hrec]; exact List.mem_cons_of_mem p0 hp2) c hc)

theorem pySplit_mem (sep s : List Char) {p : List Char} (hp : p ∈ pySplit sep s) :
    ∀ c ∈ p, c ∈ s :=
  pySplitF_mem sep s.length s p hp

theorem pyParseInt_nonneg {x : List Char} {n : Int}
    (h : pyParseInt x = some n) (hnd : '-' ∉ x) : 0 ≤ n := by
  unfold pyParseInt at h
  have hm : ¬ ((pyStrip x).head? = some '-') := by
    intro he
    exact hnd (pyStrip_subset x (mem_of_head? he))
  rw [if_neg hm] at h
  split at h <;> split at h <;>
    first
      | (simp only [Option.some.injEq] at h; subst h; omega)
      | exact absurd h (by simp)

/-- C8 counterexample: `int()` accepts a sign, so the block
`"1\n-1:00:00,000 --> 00:00:01,000\nhi"` parses to a segment whose start
is negative; the claimed `start ≥ 0` invariant fails on this input. -/
theorem c8_negative_start_cex :
    ∃ seg ∈ parse_srt (str "1\n-1:00:00,000 --> 00:00:01,000\nhi"), seg.start < 0 := by
  have hts1 : parse_srt_timestamp (str "-1:00:00,000") =
      some (((-1 : Int) : ℚ) * 3600 + ((0 : Int) : ℚ) * 60 + ((0 : Int) : ℚ) +
        ((0 : Int) : ℚ) / 1000) := by
    simp only [parse_srt_timestamp,
      show pySplit (str ",") (str "-1:00:00,000") = [str "-1:00:00", str "000"] from by decide,
      show pySplit (str ":") (str "-1:00:00") = [str "-1", str "00", str "00"] from by decide,
      show pyParseInt (str "-1") = some (-1 : Int) from by decide,
      show pyParseInt (str "00") = some (0 : Int) from by decide,
      show pyParseInt (str "000") = some (0 : Int) from by decide]
  have hts2 : parse_srt_timestamp (str "00:00:01,000") =
      some (((0 : Int) : ℚ) * 3600 + ((0 : Int) : ℚ) * 60 + ((1 : Int) : ℚ) +
        ((0 : Int) : ℚ) / 1000) := by
    simp only [parse_srt_timestamp,
      show pySplit (str ",") (str "00:00:01,000") = [str "00:00:01", str "000"] from by decide,
      show pySplit (str ":") (str "00:00:01") = [str "00", str "00", str "01"] from by decide,
      show pyParseInt (str "00") = some (0 : Int) from by decide,
      show pyParseInt (str "01") = some (1 : Int) from by decide,
      show pyParseInt (str "000") = some (0 : Int) from by decide]
  have hpb : parse_block (str "1\n-1:00:00,000 --> 00:00:01,000\nhi") =
      some ⟨((-1 : Int) : ℚ) * 3600 + ((0 : Int) : ℚ) * 60 + ((0 : Int) : ℚ) +
          ((0 : Int) : ℚ) / 1000,
        ((0 : Int) : ℚ) * 3600 + ((0 : Int) : ℚ) * 60 + ((1 : Int) : ℚ) +
          ((0 : Int) : ℚ) / 1000,
        str "hi"⟩ := by
    simp only [parse_block,
      show pyStrip (str "1\n-1:00:00,000 --> 00:00:01,000\nhi") =
        str "1\n-1:00:00,000 --> 00:00:01,000\nhi" from by decide,
      show pySplit (str "\n") (str "1\n-1:00:00,000 --> 00:00:01,000\nhi") =
        [str "1", str "-1:00:00,000 --> 00:00:01,000", str "hi"] from by decide,
      show pySplit (str " --> ") (str "-1:00:00,000 --> 00:00:01,000") =
        [str "-1:00:00,000", str "00:00:01,000"] from by decide,
      show pyStrip (str "-1:00:00,000") = str "-1:00:00,000" from by decide,
      show pyStrip (str "00:00:01,000") = str "00:00:01,000" from by decide,
      hts1, hts2,
      show pyStrip (joinSep (str " ") [str "hi"]) = str "hi" from by decide]
    rw [if_pos (by decide : str "hi" ≠ [])]
  refine ⟨⟨((-1 : Int) : ℚ) * 3600 + ((0 : Int) : ℚ) * 60 + ((0 : Int) : ℚ) +
      ((0 : Int) : ℚ) / 1000,
    ((0 : Int) : ℚ) * 3600 + ((0 : Int) : ℚ) * 60 + ((1 : Int) : ℚ) +
      ((0 : Int) : ℚ) / 1000,
    str "hi"⟩, ?_, ?_⟩
  · unfold parse_srt
    rw [show pyStrip (str "1\n-1:00:00,000 --> 00:00:01,000\nhi") =
        str "1\n-1:00:00,000 --> 00:00:01,000\nhi" from by decide,
      show pySplit (str "\n\n") (str "1\n-1:00:00,000 --> 00:00:01,000\nhi") =
        [str "1\n-1:00:00,000 --> 00:00:01,000\nhi"] from by decide]
    simp [List.filterMap_cons, hpb]
  · show ((-1 : Int) : ℚ) * 3600 + ((0 : Int) : ℚ) * 60 + ((0 : Int) : ℚ) +
      ((0 : Int) : ℚ) / 1000 < 0
    norm_num

theorem segment_text_of_ite {s e : ℚ} {J : List Char} {seg : Segment}
    (hpb : (if pyStrip J ≠ [] then some (Segment.mk s e (pyStrip J)) else none) = some seg) :
    pyStrip seg.text ≠ [] := by
  by_cases hX : pyStrip J ≠ []
  · rw [if_pos hX] at hpb
    simp only [Option.some.injEq] at hpb
    subst hpb
    show pyStrip (pyStrip J) ≠ []
    rw [pyStrip_idem]
    exact hX
  · rw [if_neg hX] at hpb
    exact absurd hpb (by simp)

/-- C8 (amended): every materialized segment has non-empty stripped text,
and a parsed timestamp is non-negative whenever its string carries no
minus sign (in particular for valid `HH:MM:SS,mmm` fields); the
unconditional `start ≥ 0` of the original claim is refuted by the
negative-field counterexample. -/
theorem c8_segment_invariant :
    (∀ (content : List Char), ∀ seg ∈ parse_srt content, pyStrip seg.text ≠ []) ∧
    (∀ (ts : List Char) (q : ℚ), parse_srt_timestamp ts = some q → '-' ∉ ts → 0 ≤ q) := by
  constructor
  · intro content seg hseg
    obtain ⟨blk, hmem, hpb⟩ := List.mem_filterMap.mp hseg
    unfold parse_block at hpb
    split at hpb
    · split at hpb
      · split at hpb
        · exact segment_text_of_ite hpb
        · exact absurd hpb (by simp)
      · exact absurd hpb (by simp)
    · exact absurd hpb (by simp)
  · intro ts q hpq hnd
    unfold parse_srt_timestamp at hpq
    split at hpq
    · rename_i time_part ms_part heq
      split at hpq
      · rename_i hs' mins' secs' heq2
        have hsub_tp : ∀ c ∈ time_part, c ∈ ts :=
          pySplit_mem (str ",") ts (by rw [heq]; simp)
        have hsub_ms : ∀ c ∈ ms_part, c ∈ ts :=
          pySplit_mem (str ",") ts (by rw [heq]; simp)
        have hsub3 : ∀ l ∈ [hs', mins', secs'], ∀ c ∈ l, c ∈ ts := by
          intro l hl c hc
          exact hsub_tp c (pySplit_mem (str ":") time_part (by rw [heq2]; exact hl) c hc)
        cases hp1 : pyParseInt hs' with
        | none => rw [hp1] at hpq; simp at hpq
        | some a =>
          cases hp2 : pyParseInt mins' with
          | none => rw [hp1, hp2] at hpq; simp at hpq
          | some b =>
            cases hp3 : pyParseInt secs' with
            | none => rw [hp1, hp2, hp3] at hpq; simp at hpq
            | some c =>
              cases hp4 : pyParseInt ms_part with
              | none => rw [hp1, hp2, hp3, hp4] at hpq; simp at hpq
              | some d =>
                rw [hp1, hp2, hp3, hp4] at hpq
                simp only [Option.some.injEq] at hpq
                subst hpq
                have ha : (0 : ℚ) ≤ (a : ℚ) := by
                  exact_mod_cast pyParseInt_nonneg hp1
                    (fun hc => hnd (hsub3 hs' (by simp) '-' hc))
                have hb : (0 : ℚ) ≤ (b : ℚ) := by
                  exact_mod_cast pyParseInt_nonneg hp2
                    (fun hc => hnd (hsub3 mins' (by simp) '-' hc))
                have hcn : (0 : ℚ) ≤ (c : ℚ) := by
                  exact_mod_cast pyParseInt_nonneg hp3
                    (fun hc => hnd (hsub3 secs' (by simp) '-' hc))
                have hd : (0 : ℚ) ≤ (d : ℚ) := by
                  exact_mod_cast pyParseInt_nonneg hp4
                    (fun hc => hnd (hsub_ms '-' hc))
                have t1 := mul_nonneg ha (show (0 : ℚ) ≤ 3600 by norm_num)
                have t2 := mul_nonneg hb (show (0 : ℚ) ≤ 60 by norm_num)
                have t4 := div_nonneg hd (show (0 : ℚ) ≤ 1000 by norm_num)
                linarith
      · exact absurd hpq (by simp)
    · exact absurd hpq (by simp)

/-- C8 witness: a concretely parsed segment has non-empty stripped text,
and the minus-free timestamp `00:00:01,000` parses to a non-negative
value. -/
theorem c8_segment_invariant_witness :
    pyStrip (pyStrip (joinSep (str " ") [str "hi"])) ≠ [] ∧
    (0 : ℚ) ≤ ((0 : Nat) : ℚ) * 3600 + ((0 : Nat) : ℚ) * 60 + ((1 : Nat) : ℚ) +
      ((0 : Nat) : ℚ) / 1000 := by
  constructor
  · exact c8_segment_invariant.1
      (mkContent (str "1") (mkTiming [] [] 0 0 0 0 0 0 1 0) [str "hi"])
      ⟨((0 : Nat) : ℚ) * 3600 + ((0 : Nat) : ℚ) * 60 + ((0 : Nat) : ℚ) +
          ((0 : Nat) : ℚ) / 1000,
        ((0 : Nat) : ℚ) * 3600 + ((0 : Nat) : ℚ) * 60 + ((1 : Nat) : ℚ) +
          ((0 : Nat) : ℚ) / 1000,
        pyStrip (joinSep (str " ") [str "hi"])⟩
      (by
        rw [parse_srt_single_block (str "1") [] [] (str "hi") [] 0 0 0 0 0 0 1 0
          (by norm_num) (by norm_num) (by norm_num) (by norm_num)
          (by norm_num) (by norm_num) (by norm_num) (by norm_num)
          (by decide) (by decide) (by simp) (by simp)
          (by decide) (by decide) (by decide)]
        exact List.mem_singleton.mpr rfl)
  · exact c8_segment_invariant.2 (tsStr 0 0 1 0)
      (((0 : Nat) : ℚ) * 3600 + ((0 : Nat) : ℚ) * 60 + ((1 : Nat) : ℚ) +
        ((0 : Nat) : ℚ) / 1000)
      (parse_srt_timestamp_tsStr (by norm_num) (by norm_num) (by norm_num) (by norm_num))
      (by decide)

/-! Paragraph grouping: the source's fold equals the spec's recursion. -/

theorem gm_fold_spec (thr : ℚ) :
    ∀ (segs : List Segment) (paras buffer : List (List Char)) (lastEnd : ℚ),
      (if (segs.foldl (gm_step thr) (paras, buffer, lastEnd)).2.1 ≠ [] then
        (segs.foldl (gm_step thr) (paras, buffer, lastEnd)).1 ++
          [joinSep (str " ") (segs.foldl (gm_step thr) (paras, buffer, lastEnd)).2.1]
      else (segs.foldl (gm_step thr) (paras, buffer, lastEnd)).1) =
      paras ++ segmentSpecGo thr segs buffer lastEnd := by
  intro segs
  induction segs with
  | nil =>
    intro paras buffer lastEnd
    simp only [List.foldl_nil, segmentSpecGo]
    cases buffer with
    | nil => simp
    | cons t b' => simp
  | cons seg rest ih =>
    intro paras buffer lastEnd
    rw [List.foldl_cons]
    by_cases ht : pyStrip seg.text = []
    · rw [show gm_step thr (paras, buffer, lastEnd) seg = (paras, buffer, lastEnd) from by
        simp [gm_step, ht]]
      rw [ih paras buffer lastEnd]
      rw [show segmentSpecGo thr (seg :: rest) buffer lastEnd =
        segmentSpecGo thr rest buffer lastEnd from by
        simp [segmentSpecGo, List.isEmpty_eq_true, ht]]
    · by_cases hsplit : buffer ≠ [] ∧ thr < seg.start - lastEnd
      · rw [show gm_step thr (paras, buffer, lastEnd) seg =
          (paras ++ [joinSep (str " ") buffer], [pyStrip seg.text], seg.end_) from by
          simp only [gm_step]
          rw [if_neg ht, if_pos hsplit]]
        rw [ih (paras ++ [joinSep (str " ") buffer]) [pyStrip seg.text] seg.end_]
        rw [show segmentSpecGo thr (seg :: rest) buffer lastEnd =
          joinSep (str " ") buffer ::
            segmentSpecGo thr rest [pyStrip seg.text] seg.end_ from by
          simp only [segmentSpecGo]
          rw [if_neg (by simpa [List.isEmpty_eq_true] using ht),
            if_pos (by simpa [List.isEmpty_eq_true] using hsplit)]]
        simp [List.append_assoc]
      · rw [show gm_step thr (paras, buffer, lastEnd) seg =
          (paras, buffer ++ [pyStrip seg.text], seg.end_) from by
          simp only [gm_step]
          rw [if_neg ht, if_neg hsplit]]
        rw [ih paras (buffer ++ [pyStrip seg.text]) seg.end_]
        rw [show segmentSpecGo thr (seg :: rest) buffer lastEnd =
          segmentSpecGo thr rest (buffer ++ [pyStrip seg.text]) seg.end_ from by
          simp only [segmentSpecGo]
          rw [if_neg (by simpa [List.isEmpty_eq_true] using ht),
            if_neg (by simpa [List.isEmpty_eq_true] using hsplit)]]

theorem group_paragraphs_eq_segmentSpec (segments : List Segment) (thr : ℚ) :
    group_paragraphs segments thr = segmentSpec segments thr :=
  gm_fold_spec thr segments [] [] 0

/-- C3: the source's paragraph grouping equals the spec's reference
policy — buffer and `lastEnd = 0` cursor, skip empty-trimmed texts, close
the paragraph when the buffer is non-empty and the gap strictly exceeds
the threshold, flush the final buffer — and in particular a gap exactly
equal to the threshold does not start a new paragraph. -/
theorem c3_segmenter_refinement :
    (∀ (segments : List Segment) (thr : ℚ),
      group_paragraphs segments thr = segmentSpec segments thr) ∧
    (∀ (s1 s2 : Segment) (thr : ℚ), pyStrip s1.text ≠ [] → pyStrip s2.text ≠ [] →
      s2.start - s1.end_ = thr →
      group_paragraphs [s1, s2] thr =
        [pyStrip s1.text ++ [' '] ++ pyStrip s2.text]) := by
  constructor
  · exact group_paragraphs_eq_segmentSpec
  · intro s1 s2 thr h1 h2 hgap
    rw [group_paragraphs_eq_segmentSpec]
    unfold segmentSpec
    rw [show segmentSpecGo thr [s1, s2] [] 0 =
      segmentSpecGo thr [s2] [pyStrip s1.text] s1.end_ from by
      simp only [segmentSpecGo]
      rw [if_neg (by simpa [List.isEmpty_eq_true] using h1),
        if_neg (by simp)]
      simp]
    rw [show segmentSpecGo thr [s2] [pyStrip s1.text] s1.end_ =
      segmentSpecGo thr [] [pyStrip s1.text, pyStrip s2.text] s2.end_ from by
      simp only [segmentSpecGo]
      rw [if_neg (by simpa [List.isEmpty_eq_true] using h2),
        if_neg (by simp [hgap])]
      simp]
    simp [segmentSpecGo, joinSep, show str " " = [' '] from rfl]

/-- C3 witness: two segments with gap exactly equal to the threshold stay
in one paragraph. -/
theorem c3_segmenter_refinement_witness :
    group_paragraphs [⟨0, 1, str "a"⟩, ⟨5 / 2, 3, str "b"⟩] (3 / 2) =
      [pyStrip (str "a") ++ [' '] ++ pyStrip (str "b")] :=
  c3_segmenter_refinement.2 ⟨0, 1, str "a"⟩ ⟨5 / 2, 3, str "b"⟩ (3 / 2)
    (by decide) (by decide) (by norm_num)

/-! Conservation of text under paragraph grouping (C10). -/

theorem keptTexts_cons (seg : Segment) (rest : List Segment) :
    keptTexts (seg :: rest) =
      if pyStrip seg.text = [] then keptTexts rest
      else pyStrip seg.text :: keptTexts rest := by
  by_cases ht : pyStrip seg.text = []
  · simp [keptTexts, ht]
  · simp [keptTexts, ht]

theorem gm_gmw (thr : ℚ) :
    ∀ (segs : List Segment) (P : List (List (List Char))) (B : List (List Char)) (L : ℚ),
      segs.foldl (gm_step thr) (P.map (joinSep (str " ")), B, L) =
        ((segs.foldl (gmw_step thr) (P, B, L)).1.map (joinSep (str " ")),
         (segs.foldl (gmw_step thr) (P, B, L)).2.1,
         (segs.foldl (gmw_step thr) (P, B, L)).2.2) := by
  intro segs
  induction segs with
  | nil => intro P B L; simp
  | cons seg rest ih =>
    intro P B L
    rw [List.foldl_cons, List.foldl_cons]
    by_cases ht : pyStrip seg.text = []
    · rw [show gm_step thr (P.map (joinSep (str " ")), B, L) seg =
          (P.map (joinSep (str " ")), B, L) from by simp [gm_step, ht],
        show gmw_step thr (P, B, L) seg = (P, B, L) from by simp [gmw_step, ht]]
      exact ih P B L
    · by_cases hsp : B ≠ [] ∧ thr < seg.start - L
      · rw [show gm_step thr (P.map (joinSep (str " ")), B, L) seg =
            ((P ++ [B]).map (joinSep (str " ")), [pyStrip seg.text], seg.end_) from by
            simp only [gm_step]
            rw [if_neg ht, if_pos hsp]
            simp,
          show gmw_step thr (P, B, L) seg = (P ++ [B], [pyStrip seg.text], seg.end_) from by
            simp only [gmw_step]
            rw [if_neg ht, if_pos hsp]]
        exact ih (P ++ [B]) [pyStrip seg.text] seg.end_
      · rw [show gm_step thr (P.map (joinSep (str " ")), B, L) seg =
            (P.map (joinSep (str " ")), B ++ [pyStrip seg.text], seg.end_) from by
            simp only [gm_step]
            rw [if_neg ht, if_neg hsp],
          show gmw_step thr (P, B, L) seg = (P, B ++ [pyStrip seg.text], seg.end_) from by
            simp only [gmw_step]
            rw [if_neg ht, if_neg hsp]]
        exact ih P (B ++ [pyStrip seg.text]) seg.end_

theorem group_paragraphs_eq_words (segments : List Segment) (thr : ℚ) :
    group_paragraphs segments thr = (group_words segments thr).map (joinSep (str " ")) := by
  unfold group_paragraphs group_words
  have h := gm_gmw thr segments [] [] 0
  simp only [List.map_nil] at h
  rw [h]
  by_cases hb : (segments.foldl (gmw_step thr) ([], [], 0)).2.1 ≠ []
  · rw [if_pos hb, if_pos hb]
    simp
  · rw [if_neg hb, if_neg hb]

theorem gmw_flatten (thr : ℚ) :
    ∀ (segs : List Segment) (P : List (List (List Char))) (B : List (List Char)) (L : ℚ),
      (if (segs.foldl (gmw_step thr) (P, B, L)).2.1 ≠ [] then
        (segs.foldl (gmw_step thr) (P, B, L)).1 ++ [(segs.foldl (gmw_step thr) (P, B, L)).2.1]
      else (segs.foldl (gmw_step thr) (P, B, L)).1).flatten =
      P.flatten ++ B ++ keptTexts segs := by
  intro segs
  induction segs with
  | nil =>
    intro P B L
    simp only [List.foldl_nil]
    cases B with
    | nil => simp [keptTexts]
    | cons t b' => simp [keptTexts]
  | cons seg rest ih =>
    intro P B L
    rw [List.foldl_cons, keptTexts_cons]
    by_cases ht : pyStrip seg.text = []
    · rw [show gmw_step thr (P, B, L) seg = (P, B, L) from by simp [gmw_step, ht],
        if_pos ht]
      exact ih P B L
    · rw [if_neg ht]
      by_cases hsp : B ≠ [] ∧ thr < seg.start - L
      · rw [show gmw_step thr (P, B, L) seg = (P ++ [B], [pyStrip seg.text], seg.end_) from by
          simp only [gmw_step]
          rw [if_neg ht, if_pos hsp]]
        rw [ih (P ++ [B]) [pyStrip seg.text] seg.end_]
        simp
      · rw [show gmw_step thr (P, B, L) seg = (P, B ++ [pyStrip seg.text], seg.end_) from by
          simp only [gmw_step]
          rw [if_neg ht, if_neg hsp]]
        rw [ih P (B ++ [pyStrip seg.text]) seg.end_]
        simp

theorem gmw_groups_ne (thr : ℚ) :
    ∀ (segs : List Segment) (P : List (List (List Char))) (B : List (List Char)) (L : ℚ),
      (∀ g ∈ P, g ≠ []) →
      ∀ g ∈ (if (segs.foldl (gmw_step thr) (P, B, L)).2.1 ≠ [] then
          (segs.foldl (gmw_step thr) (P, B, L)).1 ++ [(segs.foldl (gmw_step thr) (P, B, L)).2.1]
        else (segs.foldl (gmw_step thr) (P, B, L)).1), g ≠ [] := by
  intro segs
  induction segs with
  | nil =>
    intro P B L hP g hg
    simp only [List.foldl_nil] at hg
    by_cases hb : B ≠ []
    · rw [if_pos hb] at hg
      rcases List.mem_append.mp hg with h | h
      · exact hP g h
      · rw [List.mem_singleton.mp h]
        exact hb
    · rw [if_neg hb] at hg
      exact hP g hg
  | cons seg rest ih =>
    intro P B L hP g hg
    rw [List.foldl_cons] at hg
    by_cases ht : pyStrip seg.text = []
    · rw [show gmw_step thr (P, B, L) seg = (P, B, L) from by simp [gmw_step, ht]] at hg
      exact ih P B L hP g hg
    · by_cases hsp : B ≠ [] ∧ thr < seg.start - L
      · rw [show gmw_step thr (P, B, L) seg = (P ++ [B], [pyStrip seg.text], seg.end_) from by
          simp only [gmw_step]
          rw [if_neg ht, if_pos hsp]] at hg
        refine ih (P ++ [B]) [pyStrip seg.text] seg.end_ ?_ g hg
        intro g' hg'
        rcases List.mem_append.mp hg' with h | h
        · exact hP g' h
        · rw [List.mem_singleton.mp h]
          exact hsp.1
      · rw [show gmw_step thr (P, B, L) seg = (P, B ++ [pyStrip seg.text], seg.end_) from by
          simp only [gmw_step]
          rw [if_neg ht, if_neg hsp]] at hg
        exact ih P (B ++ [pyStrip seg.text]) seg.end_ hP g hg

theorem joinSep_append_ne (sp : List Char) :
    ∀ (a b : List (List Char)), a ≠ [] → b ≠ [] →
      joinSep sp (a ++ b) = joinSep sp a ++ sp ++ joinSep sp b := by
  intro a
  induction a with
  | nil => intro b ha _; exact absurd rfl ha
  | cons x a' ih =>
    intro b _ hb
    cases a' with
    | nil =>
      cases b with
      | nil => exact absurd rfl hb
      | cons y b' => simp [joinSep]
    | cons x' a'' =>
      simp only [List.cons_append]
      rw [joinSep_cons₂ sp x x' (a'' ++ b)]
      have hih := ih b (by simp) hb
      rw [List.cons_append] at hih
      rw [hih, joinSep_cons₂ sp x x' a'']
      simp [List.append_assoc]

theorem joinSep_map_flatten (sp : List Char) :
    ∀ (G : List (List (List Char))), (∀ g ∈ G, g ≠ []) →
      joinSep sp (G.map (joinSep sp)) = joinSep sp G.flatten := by
  intro G
  induction G with
  | nil => intro _; rfl
  | cons g G' ih =>
    intro hG
    cases G' with
    | nil => simp [joinSep]
    | cons g' G'' =>
      simp only [List.map_cons]
      rw [joinSep_cons₂ sp (joinSep sp g) (joinSep sp g') (List.map (joinSep sp) G'')]
      have hih := ih (fun x hx => hG x (List.mem_cons_of_mem g hx))
      simp only [List.map_cons] at hih
      rw [hih]
      simp only [List.flatten_cons]
      have hg : g ≠ [] := hG g (List.mem_cons_self g _)
      have hg' : g' ≠ [] := hG g' (List.mem_cons_of_mem g (List.mem_cons_self g' G''))
      have hfl : g' ++ G''.flatten ≠ [] := by simp [hg']
      rw [joinSep_append_ne sp g (g' ++ G''.flatten) hg hfl]

/-- C10: paragraph grouping conserves the text — joining the output
paragraphs with single spaces equals joining, in input order, the
stripped non-empty texts of the segments; nothing is dropped, duplicated
or reordered. -/
theorem c10_text_conservation (segments : List Segment) (thr : ℚ) :
    joinSep (str " ") (group_paragraphs segments thr) =
      joinSep (str " ") (keptTexts segments) := by
  rw [group_paragraphs_eq_words]
  rw [joinSep_map_flatten (str " ") (group_words segments thr)
    (gmw_groups_ne thr segments [] [] 0 (by simp))]
  rw [show (group_words segments thr).flatten = keptTexts segments from by
    have h := gmw_flatten thr segments [] [] 0
    simpa [group_words] using h]

/-- C4: with timestamps enabled the transcript body is, for each segment
with non-empty stripped text and in order, exactly one
`"<format_timestamp start> <text>"` line followed by one blank line
(empty-trimmed segments are skipped); in particular segments
`(0,2,"Hello")` and `(2,4,"world")` render the lines `"[0:00] Hello"` and
`"[0:02] world"`. -/
theorem c4_timestamped_rendering :
    (∀ (segments : List Segment),
      timestamp_lines segments =
        (segments.filter fun s => !(pyStrip s.text).isEmpty).flatMap
          fun s => [format_timestamp s.start ++ [' '] ++ pyStrip s.text, []]) ∧
    generate_markdown_lines ⟨none, none⟩
        [⟨0, 2, str "Hello"⟩, ⟨2, 4, str "world"⟩] (str "u") true (str "d") =
      [str "# Transcript: Untitled Video", [], str "**Source:** u",
       str "**Duration:** 0:00", str "**Transcribed:** d", [], str "---", [],
       str "## Transcript", [],
       str "[0:00] Hello", [], str "[0:02] world", []] := by
  constructor
  · intro segments
    induction segments with
    | nil => rfl
    | cons seg rest ih =>
      by_cases ht : pyStrip seg.text = []
      · rw [show timestamp_lines (seg :: rest) = timestamp_lines rest from by
          simp [timestamp_lines, ht]]
        rw [ih]
        simp [List.filter_cons, ht]
      · rw [show timestamp_lines (seg :: rest) =
          (format_timestamp seg.start ++ [' '] ++ pyStrip seg.text) ::
            [] :: timestamp_lines rest from by
          simp [timestamp_lines, ht]]
        rw [ih]
        simp [List.filter_cons, ht]
  · decide
